import Mathlib

/-!
# Verification of check_eq.py (circuit-equivalence checker)

Shallow embedding of the script `check_eq.py`, which checks two quantum
circuits for unitary equivalence (up to global phase) by preparing Bell
pairs on a doubled register, appending each candidate circuit to its own
copy of the Bell-prepared circuit, contracting the overlap tensor network
to a scalar, and comparing that scalar to 1 with numpy default tolerances.

The embedding has four layers:
* circuit syntax and the overlap construction of `test_equivalence`
  (lines 15-28 of the source);
* the equivalence judge `np.isclose(overlap, 1)` (line 38), modelled over
  the exact complex numbers;
* exact state-vector semantics for the external contraction engine
  (pytket-cutensornet `TensorNetwork.vdot` + `cuquantum.contract`), which
  the source treats as a collaborator returning the inner product of the
  two circuit output states;
* the batch driver `run` and the loader `load_circuit` (lines 41-132),
  with Python exceptions modelled as `Except` values that propagate unless
  the source catches them.
-/

/-- Gate vocabulary for circuits.  The source accepts arbitrary pytket
circuits; we embed a representative universal set (Clifford + T + Rz).
Qubit indices are natural numbers, as in pytket. -/
inductive Gate
  | H (q : ℕ)
  | X (q : ℕ)
  | Z (q : ℕ)
  | S (q : ℕ)
  | T (q : ℕ)
  | Rz (theta : ℝ) (q : ℕ)
  | CX (c t : ℕ)
  | CZ (c t : ℕ)

/-- A pytket `Circuit`: a fixed qubit count with an ordered gate list. -/
structure Circuit where
  n_qubits : ℕ
  gates : List Gate

/-- `Circuit.n_gates`, informational gate count. -/
def Circuit.n_gates (c : Circuit) : ℕ := c.gates.length

/-- Appending one gate, as the mutating pytket calls `c.H q` / `c.CX c t` do. -/
def Circuit.addGate (c : Circuit) (g : Gate) : Circuit :=
  ⟨c.n_qubits, c.gates ++ [g]⟩

/-- Qubit relabeling used by `add_circuit(circ, qubits=l)`: qubit `q` of the
appended circuit goes to `l[q]` (identity fallback for out-of-range
indices, which pytket would reject). -/
def mapQ (qubits : List ℕ) (q : ℕ) : ℕ := qubits.getD q q

/-- Relabel the qubits of a gate through the `qubits` list. -/
def Gate.remap (qubits : List ℕ) : Gate → Gate
  | .H q => .H (mapQ qubits q)
  | .X q => .X (mapQ qubits q)
  | .Z q => .Z (mapQ qubits q)
  | .S q => .S (mapQ qubits q)
  | .T q => .T (mapQ qubits q)
  | .Rz a q => .Rz a (mapQ qubits q)
  | .CX c t => .CX (mapQ qubits c) (mapQ qubits t)
  | .CZ c t => .CZ (mapQ qubits c) (mapQ qubits t)

/-- pytket `big.add_circuit(small, qubits=l)`: append `small`'s gates onto
`big`, with `small`'s qubit `q` mapped to `l[q]`. -/
def Circuit.add_circuit (c : Circuit) (other : Circuit) (qubits : List ℕ) : Circuit :=
  ⟨c.n_qubits, c.gates ++ other.gates.map (Gate.remap qubits)⟩

/-- Lines 19-23: `bell_states = Circuit(2 * n_qubits)`, then `H(q)` for
`q` in `range(n)`, then `CX(q, q + n)` for `q` in `range(n)`. -/
def bell_states (n : ℕ) : Circuit :=
  let c := Circuit.mk (2 * n) []
  let c := (List.range n).foldl (fun c q => c.addGate (.H q)) c
  (List.range n).foldl (fun c q => c.addGate (.CX q (q + n))) c

/-- Lines 25-28: `ket_circ` is a copy of the Bell preparation with `circ1`
appended on qubits `0..n-1`; `bra_circ` is the Bell preparation itself with
`circ2` appended on qubits `0..n-1` (`n` is `circ1.n_qubits`).  After both
appends the two values are independent circuits. -/
def overlap_circs (c1 c2 : Circuit) : Circuit × Circuit :=
  ((bell_states c1.n_qubits).add_circuit c1 (List.range c1.n_qubits),
   (bell_states c1.n_qubits).add_circuit c2 (List.range c1.n_qubits))

/-- Well-formedness of a single gate over `n` qubits (all indices in
range; the two `CX`/`CZ` indices distinct, as pytket requires). -/
def Gate.wfB (n : ℕ) : Gate → Bool
  | .H q => decide (q < n)
  | .X q => decide (q < n)
  | .Z q => decide (q < n)
  | .S q => decide (q < n)
  | .T q => decide (q < n)
  | .Rz _ q => decide (q < n)
  | .CX c t => decide (c < n) && decide (t < n) && decide (c ≠ t)
  | .CZ c t => decide (c < n) && decide (t < n) && decide (c ≠ t)

/-- A well-formed circuit: every gate fits its register. -/
def Circuit.wf (c : Circuit) : Prop :=
  c.gates.all (Gate.wfB c.n_qubits) = true

/-! ## The equivalence judge: `np.isclose(overlap, 1)` (line 38) -/

/-- numpy default absolute tolerance `atol = 1e-8`. -/
noncomputable def npAtol : ℝ := 1 / 10 ^ 8

/-- numpy default relative tolerance `rtol = 1e-5`. -/
noncomputable def npRtol : ℝ := 1 / 10 ^ 5

/-- `np.isclose(a, b)` with default tolerances on (finite) complex
inputs: `abs(a - b) <= atol + rtol * abs(b)`. -/
noncomputable def np_isclose (a b : ℂ) : Prop :=
  Complex.abs (a - b) ≤ npAtol + npRtol * Complex.abs b

/-- The judge of line 38 applied to the contracted scalar. -/
noncomputable def is_equivalent (z : ℂ) : Prop := np_isclose z 1

/-- Judge as worded by the spec (for comparison with the code's judge):
true iff `abs(scalar - 1.0) < 1e-8`, strictly, with no relative term. -/
noncomputable def is_equivalent_spec (z : ℂ) : Prop :=
  Complex.abs (z - 1) < 1 / 10 ^ 8

/-- A scalar at distance `5e-6` from 1: inside numpy's default band,
outside the spec's `1e-8` band. -/
noncomputable def z0 : ℂ := 1 + ((1 / 200000 : ℝ) : ℂ)

/-! ## Exact semantics of the contraction engine

The source delegates contraction to pytket-cutensornet / cuquantum
(lines 31-36).  Per the spec this collaborator is "given an abstract
tensor network, return the contracted scalar": it builds the output
states of `ket_circ` and `bra_circ` from `|0...0⟩` and returns their
inner product (`vdot`, bra side conjugated).  We model it by exact
state vectors over `ℂ`. -/

/-- Amplitudes over `m` qubits, indexed by basis states `Fin m → Bool`. -/
def QState (m : ℕ) : Type := (Fin m → Bool) → ℂ

/-- The all-zeros basis state. -/
def allFalse (m : ℕ) : Fin m → Bool := fun _ => false

/-- The initial state `|0...0⟩`. -/
noncomputable def initQ (m : ℕ) : QState m :=
  fun x => if x = allFalse m then 1 else 0

/-- Reading bit `q` of a basis state (false when out of range). -/
def bitAt {m : ℕ} (x : Fin m → Bool) (q : ℕ) : Bool :=
  if h : q < m then x ⟨q, h⟩ else false

/-- Flipping bit `q` of a basis state. -/
def flipAt {m : ℕ} (q : Fin m) (x : Fin m → Bool) : Fin m → Bool :=
  Function.update x q (! x q)

/-- Basis-state action of `CX c t`: flip `t` where bit `c` is set. -/
def cxMap {m : ℕ} (c t : Fin m) (x : Fin m → Bool) : Fin m → Bool :=
  if x c then flipAt t x else x

/-- The Hadamard gate on qubit `q`. -/
noncomputable def applyH {m : ℕ} (q : Fin m) (v : QState m) : QState m :=
  fun x => (↑(Real.sqrt 2))⁻¹ *
    (v (Function.update x q false) +
      (if x q then -1 else 1) * v (Function.update x q true))

/-- One gate acting on an `m`-qubit state.  Out-of-range indices (and a
`CX` with equal control and target), which pytket rejects at circuit
construction, act as the identity so that the semantics is total. -/
noncomputable def applyGate (m : ℕ) : Gate → QState m → QState m
  | .H q, v => if h : q < m then applyH ⟨q, h⟩ v else v
  | .X q, v => if h : q < m then fun x => v (flipAt ⟨q, h⟩ x) else v
  | .Z q, v => fun x => (if bitAt x q then (-1 : ℂ) else 1) * v x
  | .S q, v => fun x => (if bitAt x q then Complex.I else 1) * v x
  | .T q, v => fun x =>
      (if bitAt x q then Complex.exp (↑(Real.pi / 4) * Complex.I) else 1) * v x
  | .Rz a q, v => fun x =>
      Complex.exp (↑(if bitAt x q then a / 2 else -(a / 2)) * Complex.I) * v x
  | .CX c t, v => if h : c < m ∧ t < m ∧ c ≠ t then
      (fun x => v (cxMap ⟨c, h.1⟩ ⟨t, h.2.1⟩ x)) else v
  | .CZ c t, v => fun x => (if bitAt x c && bitAt x t then (-1 : ℂ) else 1) * v x

/-- Running a gate list from a given state. -/
noncomputable def stateAfter (m : ℕ) (gs : List Gate) (v : QState m) : QState m :=
  gs.foldl (fun w g => applyGate m g w) v

/-- Lines 31-36: build the two networks, adjoin the bra side, contract.
The engine returns `⟨bra_circ output | ket_circ output⟩`, both states
prepared from `|0...0⟩` on the shared `2n`-qubit register. -/
noncomputable def contract_overlap (ket bra : Circuit) : ℂ :=
  ∑ x : Fin ket.n_qubits → Bool,
    (starRingEnd ℂ) (stateAfter ket.n_qubits bra.gates (initQ ket.n_qubits) x) *
      stateAfter ket.n_qubits ket.gates (initQ ket.n_qubits) x

/-- Total squared amplitude of a state (square of its l2 norm). -/
noncomputable def normSqSum {m : ℕ} (v : QState m) : ℝ :=
  ∑ x, Complex.normSq (v x)

/-- Python exceptions relevant to the script, as `Except` errors.
`valueError` covers `ValueError` and its subclasses (the loader's
unknown-extension raise and `json.JSONDecodeError`); `inputMismatch` is
the `AssertionError` of line 17 (the spec's `InputMismatchError`);
`contractionError` is a failure inside the contraction engine. -/
inductive PyErr
  | valueError
  | inputMismatch
  | contractionError
  | otherError
deriving DecidableEq

/-- `test_equivalence` (lines 15-38): assert equal qubit counts, build the
overlap circuits, contract, judge against 1.  The `AssertionError` is
modelled as the error branch; the returned proposition is the verdict. -/
noncomputable def test_equivalence (c1 c2 : Circuit) : Except PyErr Prop :=
  if c1.n_qubits = c2.n_qubits then
    .ok (is_equivalent (contract_overlap (overlap_circs c1 c2).1 (overlap_circs c1 c2).2))
  else .error .inputMismatch

/-- The call returned normally with a `True` verdict. -/
def verdictTrue (r : Except PyErr Prop) : Prop :=
  ∃ p, r = .ok p ∧ p

/-! ## The loader and the batch driver (lines 41-132) -/

/-- An on-disk circuit file: name stem, extension, and the outcome of the
format-specific parse were it attempted (the pytket/json parse, with the
`bits` field cleared resp. `creg` lines stripped, is an external
collaborator; a malformed `.json` file carries `.error .valueError`
because `json.JSONDecodeError` subclasses `ValueError`). -/
structure SrcFile where
  stem : String
  suffix : String
  parsed : Except PyErr Circuit

/-- `load_circuit` (lines 114-132): dispatch on the extension; for
`.json` / `.qasm` run the format parse, otherwise raise
`ValueError(Unknown file extension)`. -/
def load_circuit (f : SrcFile) : Except PyErr Circuit :=
  if f.suffix = ".json" then f.parsed
  else if f.suffix = ".qasm" then f.parsed
  else .error .valueError

/-- Console output of `run`, one constructor per print site:
the per-before header (line 68), the per-pair line start (line 75), the
four pair statuses (lines 79, 85, 93, 96) and the final summary
(line 103). -/
inductive ConsoleLine
  | checking (stem : String) (nQubits nGates : ℕ)
  | pairStart (stem : String) (nGates : ℕ)
  | statusOk
  | statusFailMismatch (nQubits : ℕ)
  | statusFailNotEq
  | statusSkip
  | summary (nSuccess nFail nSkipped : ℕ)
deriving DecidableEq

/-- The pair status prints. -/
def ConsoleLine.isOk : ConsoleLine → Bool
  | .statusOk => true
  | _ => false

/-- A FAIL print (mismatch or failed contraction check). -/
def ConsoleLine.isFail : ConsoleLine → Bool
  | .statusFailMismatch _ => true
  | .statusFailNotEq => true
  | _ => false

/-- The FAIL print of a completed, non-equivalent contraction. -/
def ConsoleLine.isFailNotEq : ConsoleLine → Bool
  | .statusFailNotEq => true
  | _ => false

/-- The Skip print. -/
def ConsoleLine.isSkip : ConsoleLine → Bool
  | .statusSkip => true
  | _ => false

/-- Any of the OK / FAIL / Skip statuses. -/
def ConsoleLine.isStatus (l : ConsoleLine) : Bool :=
  l.isOk || l.isFail || l.isSkip

/-- The mutable state of `run`: the three counters, the `results` list
(rows of the final report, elapsed time omitted as wall-clock), and the
console transcript. -/
structure RunState where
  n_success : ℕ
  n_fail : ℕ
  n_skipped : ℕ
  results : List (String × Bool)
  console : List ConsoleLine
deriving DecidableEq

/-- Counters zero, results list empty (as passed in by `__main__`). -/
def initRS : RunState := ⟨0, 0, 0, [], []⟩

/-- Print one console line. -/
def RunState.pushLine (st : RunState) (l : ConsoleLine) : RunState :=
  { st with console := st.console ++ [l] }

/-- Lines 77-82: mismatched qubit counts print FAIL, bump `n_fail` and
`continue` — no report row is appended. -/
def failMismatchStep (nq : ℕ) (st : RunState) : RunState × Option PyErr :=
  ({ st with console := st.console ++ [.statusFailMismatch nq],
             n_fail := st.n_fail + 1 }, none)

/-- Lines 84-87: over the qubit ceiling prints Skip, bumps `n_skipped`
and `continue`s — no report row. -/
def skipStep (st : RunState) : RunState × Option PyErr :=
  ({ st with console := st.console ++ [.statusSkip],
             n_skipped := st.n_skipped + 1 }, none)

/-- Lines 88-99: the `test_equivalence` call and its aftermath.  `r` is
the outcome of the call (its exceptions are not caught here, so an error
propagates); on normal return the verdict is printed, counted, and one
row is appended to `results`. -/
def attemptPair (stem : String) (r : Except PyErr Bool) (st : RunState) :
    RunState × Option PyErr :=
  match r with
  | .error e => (st, some e)
  | .ok b =>
    ({ st with
        console := st.console ++ [if b then .statusOk else .statusFailNotEq],
        n_success := if b then st.n_success + 1 else st.n_success,
        n_fail := if b then st.n_fail else st.n_fail + 1,
        results := st.results ++ [(stem, b)] }, none)

/-- Lines 72-99, one candidate file.  `tEq` is the behavior of
`test_equivalence` on count-matching pairs (contract and judge; it is a
parameter because contraction is the external engine).  The
`load_circuit` call of line 73 is not inside any try/except, so its
errors propagate. -/
def processPair (maxQ : ℕ) (tEq : Circuit → Circuit → Except PyErr Bool)
    (oldC : Circuit) (stem : String) (f : SrcFile) (st : RunState) :
    RunState × Option PyErr :=
  match load_circuit f with
  | .error e => (st, some e)
  | .ok newC =>
    let st1 := st.pushLine (.pairStart f.stem newC.n_gates)
    if newC.n_qubits ≠ oldC.n_qubits then failMismatchStep newC.n_qubits st1
    else if maxQ < newC.n_qubits then skipStep st1
    else attemptPair stem (tEq newC oldC) st1

/-- A "before" circuit file together with its glob-discovered "after"
candidates (`json` matches then `qasm` matches, in that order). -/
structure BeforeEntry where
  file : SrcFile
  afters : List SrcFile

/-- Sequencing with Python exception semantics: run the step on each
element; a step returning an error aborts the iteration, keeping the
state mutated so far. -/
def runFold {α : Type} (step : α → RunState → RunState × Option PyErr) :
    List α → RunState → RunState × Option PyErr
  | [], st => (st, none)
  | a :: as, st =>
    match step a st with
    | (st2, none) => runFold step as st2
    | (st2, some e) => (st2, some e)

/-- Lines 51-99, one "before" file: load it, catching exactly
`ValueError` (lines 55-60) by silently continuing; skip silently when no
candidates were discovered; otherwise print the header and process every
candidate. -/
def processBefore (maxQ : ℕ) (tEq : Circuit → Circuit → Except PyErr Bool)
    (b : BeforeEntry) (st : RunState) : RunState × Option PyErr :=
  match load_circuit b.file with
  | .error .valueError => (st, none)
  | .error e => (st, some e)
  | .ok oldC =>
    if b.afters.isEmpty then (st, none)
    else
      runFold (processPair maxQ tEq oldC b.file.stem) b.afters
        (st.pushLine (.checking b.file.stem oldC.n_qubits oldC.n_gates))

/-- `run(max_qubits, results)` (lines 41-111) over the discovered
directory contents: process every before entry; print the summary line
only on normal completion (an uncaught exception propagates past
line 103 to the caller's `finally`). -/
def run (maxQ : ℕ) (tEq : Circuit → Circuit → Except PyErr Bool)
    (befores : List BeforeEntry) : RunState × Option PyErr :=
  match runFold (processBefore maxQ tEq) befores initRS with
  | (st, none) =>
    (st.pushLine (.summary st.n_success st.n_fail st.n_skipped), none)
  | (st, some e) => (st, some e)

/-- The bookkeeping invariant of `run`: each counter equals the number of
matching status lines printed, and the report rows are exactly the pairs
whose contraction completed (OK, or FAIL after a completed contraction —
mismatch FAILs and Skips leave no row). -/
def consoleInv (st : RunState) : Prop :=
  st.n_success = st.console.countP ConsoleLine.isOk ∧
  st.n_fail = st.console.countP ConsoleLine.isFail ∧
  st.n_skipped = st.console.countP ConsoleLine.isSkip ∧
  st.results.length =
    st.console.countP ConsoleLine.isOk + st.console.countP ConsoleLine.isFailNotEq

/-- An engine that always judges equivalent (for concrete batches where
the engine is never consulted). -/
def tEqOk : Circuit → Circuit → Except PyErr Bool := fun _ _ => Except.ok true

/-- An engine that always fails with a `ContractionError`. -/
def tEqErr : Circuit → Circuit → Except PyErr Bool :=
  fun _ _ => Except.error PyErr.contractionError

/-- A before entry whose single candidate has a mismatched qubit count. -/
def mmBefore : BeforeEntry :=
  ⟨⟨"a", ".json", Except.ok ⟨1, []⟩⟩, [⟨"a1", ".json", Except.ok ⟨2, []⟩⟩]⟩

/-- A before entry with two well-matched candidates. -/
def ceBefore : BeforeEntry :=
  ⟨⟨"a", ".json", Except.ok ⟨1, []⟩⟩,
   [⟨"a1", ".json", Except.ok ⟨1, []⟩⟩, ⟨"a2", ".json", Except.ok ⟨1, []⟩⟩]⟩

/-! ## Circuit-structure lemmas -/

theorem foldl_addGate_gates (c : Circuit) (l : List ℕ) (f : ℕ → Gate) :
    (l.foldl (fun c q => c.addGate (f q)) c).gates = c.gates ++ l.map f := by
  induction l generalizing c with
  | nil => simp
  | cons a as ih =>
      rw [List.foldl_cons, ih]
      simp [Circuit.addGate]

theorem foldl_addGate_n_qubits (c : Circuit) (l : List ℕ) (f : ℕ → Gate) :
    (l.foldl (fun c q => c.addGate (f q)) c).n_qubits = c.n_qubits := by
  induction l generalizing c with
  | nil => rfl
  | cons a as ih =>
      rw [List.foldl_cons, ih]
      rfl

theorem bell_states_gates (n : ℕ) :
    (bell_states n).gates =
      (List.range n).map Gate.H ++ (List.range n).map (fun q => Gate.CX q (q + n)) := by
  unfold bell_states
  rw [foldl_addGate_gates, foldl_addGate_gates]
  simp

theorem bell_states_n_qubits (n : ℕ) : (bell_states n).n_qubits = 2 * n := by
  unfold bell_states
  rw [foldl_addGate_n_qubits, foldl_addGate_n_qubits]

theorem mapQ_range (n q : ℕ) (h : q < n) : mapQ (List.range n) q = q := by
  unfold mapQ
  rw [List.getD_eq_getElem?_getD, List.getElem?_range h]
  rfl

theorem remap_range_eq_self (n : ℕ) (g : Gate) (hg : Gate.wfB n g = true) :
    Gate.remap (List.range n) g = g := by
  cases g with
  | H q =>
      simp only [Gate.wfB, decide_eq_true_eq] at hg
      simp [Gate.remap, mapQ_range n q hg]
  | X q =>
      simp only [Gate.wfB, decide_eq_true_eq] at hg
      simp [Gate.remap, mapQ_range n q hg]
  | Z q =>
      simp only [Gate.wfB, decide_eq_true_eq] at hg
      simp [Gate.remap, mapQ_range n q hg]
  | S q =>
      simp only [Gate.wfB, decide_eq_true_eq] at hg
      simp [Gate.remap, mapQ_range n q hg]
  | T q =>
      simp only [Gate.wfB, decide_eq_true_eq] at hg
      simp [Gate.remap, mapQ_range n q hg]
  | Rz a q =>
      simp only [Gate.wfB, decide_eq_true_eq] at hg
      simp [Gate.remap, mapQ_range n q hg]
  | CX c t =>
      simp only [Gate.wfB, Bool.and_eq_true, decide_eq_true_eq] at hg
      simp [Gate.remap, mapQ_range n c hg.1.1, mapQ_range n t hg.1.2]
  | CZ c t =>
      simp only [Gate.wfB, Bool.and_eq_true, decide_eq_true_eq] at hg
      simp [Gate.remap, mapQ_range n c hg.1.1, mapQ_range n t hg.1.2]

theorem wf_map_remap (c : Circuit) (h : c.wf) :
    c.gates.map (Gate.remap (List.range c.n_qubits)) = c.gates := by
  unfold Circuit.wf at h
  rw [List.all_eq_true] at h
  conv_rhs => rw [← List.map_id c.gates]
  exact List.map_congr_left fun g hg => remap_range_eq_self _ _ (h g hg)

/-! ## Judge lemmas -/

theorem is_equivalent_one : is_equivalent 1 := by
  unfold is_equivalent np_isclose npAtol npRtol
  have h0 : Complex.abs ((1 : ℂ) - 1) = 0 := by simp
  have h1 : Complex.abs (1 : ℂ) = 1 := Complex.abs.map_one
  rw [h0, h1]
  norm_num

/-! ## Norm preservation of the gate semantics -/

theorem normSqSum_initQ (m : ℕ) : normSqSum (initQ m) = 1 := by
  unfold normSqSum initQ
  have h : ∀ x : Fin m → Bool,
      Complex.normSq (if x = allFalse m then (1 : ℂ) else 0) =
        (if x = allFalse m then (1 : ℝ) else 0) := by
    intro x
    by_cases hx : x = allFalse m <;> simp [hx]
  simp only [h]
  rw [Finset.sum_ite_eq' Finset.univ (allFalse m) (fun _ => (1 : ℝ))]
  simp

theorem normSqSum_phase {m : ℕ} (p : (Fin m → Bool) → ℂ) (v : QState m)
    (hp : ∀ x, Complex.normSq (p x) = 1) :
    normSqSum (fun x => p x * v x) = normSqSum v := by
  unfold normSqSum
  exact Finset.sum_congr rfl fun x _ => by rw [Complex.normSq_mul, hp, one_mul]

theorem normSqSum_comp {m : ℕ} (e : Equiv.Perm (Fin m → Bool)) (v : QState m) :
    normSqSum (fun x => v (e x)) = normSqSum v := by
  unfold normSqSum
  exact Equiv.sum_comp e fun x => Complex.normSq (v x)

theorem flipAt_involutive {m : ℕ} (q : Fin m) : Function.Involutive (flipAt q) := by
  intro x
  unfold flipAt
  rw [Function.update_same, Function.update_idem, Bool.not_not, Function.update_eq_self]

theorem cxMap_involutive {m : ℕ} (c t : Fin m) (h : c ≠ t) :
    Function.Involutive (cxMap c t) := by
  intro x
  have hc : flipAt t x c = x c := by
    unfold flipAt
    exact Function.update_noteq h (! x t) x
  unfold cxMap
  cases hx : x c with
  | false => simp [hx]
  | true => simp [hx, hc, flipAt_involutive t x]

theorem piSplit_symm_self {m : ℕ} (q : Fin m) (b : Bool)
    (r : (j : {j : Fin m // j ≠ q}) → Bool) :
    (Equiv.piSplitAt q fun _ => Bool).symm (b, r) q = b := by
  simp [Equiv.piSplitAt_symm_apply]

theorem piSplit_symm_update {m : ℕ} (q : Fin m) (b c : Bool)
    (r : (j : {j : Fin m // j ≠ q}) → Bool) :
    Function.update ((Equiv.piSplitAt q fun _ => Bool).symm (b, r)) q c =
      (Equiv.piSplitAt q fun _ => Bool).symm (c, r) := by
  funext j
  by_cases hj : j = q
  · subst hj
    simp [Equiv.piSplitAt_symm_apply]
  · simp [Function.update_noteq hj, Equiv.piSplitAt_symm_apply, hj]

theorem sum_split_bit {m : ℕ} (q : Fin m) (f : (Fin m → Bool) → ℝ) :
    ∑ x, f x =
      ∑ r : (j : {j : Fin m // j ≠ q}) → Bool,
        (f ((Equiv.piSplitAt q fun _ => Bool).symm (false, r)) +
         f ((Equiv.piSplitAt q fun _ => Bool).symm (true, r))) := by
  rw [← Equiv.sum_comp (Equiv.piSplitAt q fun _ => Bool).symm f]
  rw [Fintype.sum_prod_type]
  rw [Fintype.sum_bool]
  rw [← Finset.sum_add_distrib]
  exact Finset.sum_congr rfl fun r _ => by ring

theorem normSq_invSqrt2 : Complex.normSq ((↑(Real.sqrt 2) : ℂ))⁻¹ = 1 / 2 := by
  rw [← Complex.ofReal_inv, Complex.normSq_ofReal]
  rw [← mul_inv]
  rw [Real.mul_self_sqrt (by norm_num : (0 : ℝ) ≤ 2)]
  norm_num

theorem normSq_parallelogram (a b : ℂ) :
    Complex.normSq (a + b) + Complex.normSq (a - b) =
      2 * (Complex.normSq a + Complex.normSq b) := by
  simp only [Complex.normSq_apply, Complex.add_re, Complex.add_im, Complex.sub_re,
    Complex.sub_im]
  ring

theorem normSqSum_applyH {m : ℕ} (q : Fin m) (v : QState m) :
    normSqSum (applyH q v) = normSqSum v := by
  unfold normSqSum
  rw [sum_split_bit q fun x => Complex.normSq (applyH q v x),
      sum_split_bit q fun x => Complex.normSq (v x)]
  refine Finset.sum_congr rfl fun r _ => ?_
  have hf : applyH q v ((Equiv.piSplitAt q fun _ => Bool).symm (false, r)) =
      (↑(Real.sqrt 2) : ℂ)⁻¹ *
        (v ((Equiv.piSplitAt q fun _ => Bool).symm (false, r)) +
         v ((Equiv.piSplitAt q fun _ => Bool).symm (true, r))) := by
    simp only [applyH]
    rw [piSplit_symm_self, piSplit_symm_update, piSplit_symm_update]
    simp
  have ht : applyH q v ((Equiv.piSplitAt q fun _ => Bool).symm (true, r)) =
      (↑(Real.sqrt 2) : ℂ)⁻¹ *
        (v ((Equiv.piSplitAt q fun _ => Bool).symm (false, r)) -
         v ((Equiv.piSplitAt q fun _ => Bool).symm (true, r))) := by
    simp only [applyH]
    rw [piSplit_symm_self, piSplit_symm_update, piSplit_symm_update]
    simp
    ring
  rw [hf, ht, Complex.normSq_mul, Complex.normSq_mul, normSq_invSqrt2]
  have hp := normSq_parallelogram
    (v ((Equiv.piSplitAt q fun _ => Bool).symm (false, r)))
    (v ((Equiv.piSplitAt q fun _ => Bool).symm (true, r)))
  linarith [hp]

theorem normSqSum_applyGate {m : ℕ} (g : Gate) (v : QState m) :
    normSqSum (applyGate m g v) = normSqSum v := by
  cases g with
  | H q =>
      simp only [applyGate]
      by_cases h : q < m
      · rw [dif_pos h]
        exact normSqSum_applyH ⟨q, h⟩ v
      · rw [dif_neg h]
  | X q =>
      simp only [applyGate]
      by_cases h : q < m
      · rw [dif_pos h]
        exact normSqSum_comp (Function.Involutive.toPerm _ (flipAt_involutive ⟨q, h⟩)) v
      · rw [dif_neg h]
  | Z q =>
      simp only [applyGate]
      exact normSqSum_phase (fun x => if bitAt x q then (-1 : ℂ) else 1) v
        fun x => by cases hb : bitAt x q <;> simp [hb]
  | S q =>
      simp only [applyGate]
      exact normSqSum_phase (fun x => if bitAt x q then Complex.I else 1) v
        fun x => by cases hb : bitAt x q <;> simp [hb]
  | T q =>
      simp only [applyGate]
      refine normSqSum_phase _ v fun x => ?_
      cases hb : bitAt x q
      · simp
      · simp only [if_pos rfl, hb, if_true]
        rw [Complex.normSq_eq_abs, Complex.abs_exp_ofReal_mul_I]
        norm_num
  | Rz a q =>
      simp only [applyGate]
      refine normSqSum_phase _ v fun x => ?_
      rw [Complex.normSq_eq_abs, Complex.abs_exp_ofReal_mul_I]
      norm_num
  | CX c t =>
      simp only [applyGate]
      by_cases h : c < m ∧ t < m ∧ c ≠ t
      · rw [dif_pos h]
        have hne : (⟨c, h.1⟩ : Fin m) ≠ ⟨t, h.2.1⟩ := Fin.ne_of_val_ne h.2.2
        exact normSqSum_comp
          (Function.Involutive.toPerm _ (cxMap_involutive _ _ hne)) v
      · rw [dif_neg h]
  | CZ c t =>
      simp only [applyGate]
      exact normSqSum_phase (fun x => if bitAt x c && bitAt x t then (-1 : ℂ) else 1) v
        fun x => by cases hb : bitAt x c && bitAt x t <;> simp [hb]

theorem normSqSum_stateAfter {m : ℕ} (gs : List Gate) (v : QState m) :
    normSqSum (stateAfter m gs v) = normSqSum v := by
  induction gs generalizing v with
  | nil => rfl
  | cons g gs ih =>
      unfold stateAfter
      rw [List.foldl_cons]
      have h2 := ih (applyGate m g v)
      unfold stateAfter at h2
      rw [h2, normSqSum_applyGate]

theorem contract_overlap_self (k : Circuit) :
    contract_overlap k k =
      ↑(normSqSum (stateAfter k.n_qubits k.gates (initQ k.n_qubits))) := by
  unfold contract_overlap normSqSum
  rw [Complex.ofReal_sum]
  refine Finset.sum_congr rfl fun x _ => ?_
  rw [mul_comm]
  exact Complex.mul_conj _

theorem overlap_self_eq_one (c : Circuit) :
    contract_overlap (overlap_circs c c).1 (overlap_circs c c).2 = 1 := by
  have h12 : (overlap_circs c c).2 = (overlap_circs c c).1 := rfl
  rw [h12, contract_overlap_self, normSqSum_stateAfter, normSqSum_initQ]
  norm_num

/-! ## Batch bookkeeping lemmas -/

theorem runFold_inv {α : Type} (step : α → RunState → RunState × Option PyErr)
    (P : RunState → Prop) (hstep : ∀ a st, P st → P (step a st).1) :
    ∀ (l : List α) (st : RunState), P st → P (runFold step l st).1 := by
  intro l
  induction l with
  | nil => intro st h; exact h
  | cons a as ih =>
      intro st h
      have h2 := hstep a st h
      simp only [runFold]
      cases hs : step a st with
      | mk st2 oe =>
          rw [hs] at h2
          cases oe with
          | none => exact ih st2 h2
          | some e => exact h2

theorem pushLine_nonstatus_inv (st : RunState) (l : ConsoleLine)
    (hOk : l.isOk = false) (hF : l.isFail = false) (hS : l.isSkip = false)
    (hFN : l.isFailNotEq = false) (h : consoleInv st) :
    consoleInv (st.pushLine l) := by
  obtain ⟨h1, h2, h3, h4⟩ := h
  refine ⟨?_, ?_, ?_, ?_⟩ <;>
    simp [RunState.pushLine, List.countP_append, List.countP_cons, hOk, hF, hS, hFN,
      h1, h2, h3, h4]

theorem failMismatchStep_inv (nq : ℕ) (st : RunState) (h : consoleInv st) :
    consoleInv (failMismatchStep nq st).1 := by
  obtain ⟨h1, h2, h3, h4⟩ := h
  refine ⟨?_, ?_, ?_, ?_⟩ <;>
    simp [failMismatchStep, List.countP_append, List.countP_cons,
      ConsoleLine.isOk, ConsoleLine.isFail, ConsoleLine.isFailNotEq,
      ConsoleLine.isSkip, h1, h2, h3, h4]

theorem skipStep_inv (st : RunState) (h : consoleInv st) :
    consoleInv (skipStep st).1 := by
  obtain ⟨h1, h2, h3, h4⟩ := h
  refine ⟨?_, ?_, ?_, ?_⟩ <;>
    simp [skipStep, List.countP_append, List.countP_cons,
      ConsoleLine.isOk, ConsoleLine.isFail, ConsoleLine.isFailNotEq,
      ConsoleLine.isSkip, h1, h2, h3, h4]

theorem attemptPair_inv (stem : String) (r : Except PyErr Bool) (st : RunState)
    (h : consoleInv st) : consoleInv (attemptPair stem r st).1 := by
  cases r with
  | error e => exact h
  | ok b =>
      obtain ⟨h1, h2, h3, h4⟩ := h
      cases b <;>
        refine ⟨?_, ?_, ?_, ?_⟩ <;>
          simp [attemptPair, List.countP_append, List.countP_cons,
            ConsoleLine.isOk, ConsoleLine.isFail, ConsoleLine.isFailNotEq,
            ConsoleLine.isSkip, h1, h2, h3, h4] <;>
          omega

theorem processPair_eq_of_load (maxQ : ℕ) (tEq : Circuit → Circuit → Except PyErr Bool)
    (oldC : Circuit) (stem : String) (f : SrcFile) (st : RunState) (newC : Circuit)
    (hl : load_circuit f = .ok newC) :
    processPair maxQ tEq oldC stem f st =
      (if newC.n_qubits ≠ oldC.n_qubits then
        failMismatchStep newC.n_qubits (st.pushLine (.pairStart f.stem newC.n_gates))
      else if maxQ < newC.n_qubits then
        skipStep (st.pushLine (.pairStart f.stem newC.n_gates))
      else attemptPair stem (tEq newC oldC)
        (st.pushLine (.pairStart f.stem newC.n_gates))) := by
  simp only [processPair, hl]

theorem processPair_inv (maxQ : ℕ) (tEq : Circuit → Circuit → Except PyErr Bool)
    (oldC : Circuit) (stem : String) (f : SrcFile) (st : RunState)
    (h : consoleInv st) : consoleInv (processPair maxQ tEq oldC stem f st).1 := by
  cases hl : load_circuit f with
  | error e =>
      simp only [processPair, hl]
      exact h
  | ok newC =>
      rw [processPair_eq_of_load maxQ tEq oldC stem f st newC hl]
      have hst1 : consoleInv (st.pushLine (.pairStart f.stem newC.n_gates)) :=
        pushLine_nonstatus_inv st _ rfl rfl rfl rfl h
      by_cases hq : newC.n_qubits ≠ oldC.n_qubits
      · rw [if_pos hq]
        exact failMismatchStep_inv _ _ hst1
      · rw [if_neg hq]
        by_cases hc : maxQ < newC.n_qubits
        · rw [if_pos hc]
          exact skipStep_inv _ hst1
        · rw [if_neg hc]
          exact attemptPair_inv _ _ _ hst1

theorem processBefore_inv (maxQ : ℕ) (tEq : Circuit → Circuit → Except PyErr Bool)
    (b : BeforeEntry) (st : RunState) (h : consoleInv st) :
    consoleInv (processBefore maxQ tEq b st).1 := by
  cases hl : load_circuit b.file with
  | error e =>
      cases e <;> simp only [processBefore, hl] <;> exact h
  | ok oldC =>
      simp only [processBefore, hl]
      by_cases he : b.afters.isEmpty
      · rw [if_pos he]
        exact h
      · rw [if_neg he]
        exact runFold_inv _ consoleInv
          (fun a st2 h2 => processPair_inv maxQ tEq oldC b.file.stem a st2 h2)
          b.afters _ (pushLine_nonstatus_inv st _ rfl rfl rfl rfl h)

theorem run_inv (maxQ : ℕ) (tEq : Circuit → Circuit → Except PyErr Bool)
    (befores : List BeforeEntry) : consoleInv (run maxQ tEq befores).1 := by
  have h0 : consoleInv initRS := ⟨rfl, rfl, rfl, rfl⟩
  have hf := runFold_inv (processBefore maxQ tEq) consoleInv
    (fun a st h => processBefore_inv maxQ tEq a st h) befores initRS h0
  unfold run
  cases hs : runFold (processBefore maxQ tEq) befores initRS with
  | mk st oe =>
      rw [hs] at hf
      cases oe with
      | none => exact pushLine_nonstatus_inv st _ rfl rfl rfl rfl hf
      | some e => exact hf

/-! ## Decomposition of the overlap circuits -/

theorem overlap_circs_fst_gates (c1 c2 : Circuit) :
    (overlap_circs c1 c2).1.gates =
      (bell_states c1.n_qubits).gates ++
        c1.gates.map (Gate.remap (List.range c1.n_qubits)) := rfl

theorem overlap_circs_snd_gates (c1 c2 : Circuit) :
    (overlap_circs c1 c2).2.gates =
      (bell_states c1.n_qubits).gates ++
        c2.gates.map (Gate.remap (List.range c1.n_qubits)) := rfl

theorem take_bell_H (n : ℕ) (rest : List Gate) :
    ((bell_states n).gates ++ rest).take n = (List.range n).map Gate.H := by
  rw [bell_states_gates, List.append_assoc]
  exact List.take_left' (by simp)

theorem drop_take_bell_CX (n : ℕ) (rest : List Gate) :
    (((bell_states n).gates ++ rest).drop n).take n =
      (List.range n).map (fun q => Gate.CX q (q + n)) := by
  rw [bell_states_gates, List.append_assoc]
  rw [List.drop_left' (by simp)]
  exact List.take_left' (by simp)

theorem drop_bell (n : ℕ) (rest : List Gate) :
    ((bell_states n).gates ++ rest).drop (2 * n) = rest := by
  rw [bell_states_gates]
  exact List.drop_left' (by simp [two_mul])

/-! ## Claims -/

/-- Claim C1: for every pair of input circuits with equal qubit count `n`,
the overlap construction of `test_equivalence` builds two circuits over
exactly `2 * n` qubits; each begins with a Hadamard on every qubit index
`0..n-1`, followed by a controlled-NOT from qubit `i` to qubit `i + n` for
each `i` in `0..n-1`, and only after this Bell preparation are the
candidate circuits appended — each onto its own copy of the preparation
(`circ1` in the ket circuit, `circ2` in the bra circuit), mapped onto
qubit indices `0..n-1` (the identity embedding for well-formed gates). -/
theorem overlap_construction_spec (c1 c2 : Circuit)
    (h : c1.n_qubits = c2.n_qubits) :
    (overlap_circs c1 c2).1.n_qubits = 2 * c1.n_qubits ∧
    (overlap_circs c1 c2).2.n_qubits = 2 * c1.n_qubits ∧
    (overlap_circs c1 c2).1.gates.take c1.n_qubits =
      (List.range c1.n_qubits).map Gate.H ∧
    (overlap_circs c1 c2).2.gates.take c1.n_qubits =
      (List.range c1.n_qubits).map Gate.H ∧
    ((overlap_circs c1 c2).1.gates.drop c1.n_qubits).take c1.n_qubits =
      (List.range c1.n_qubits).map (fun q => Gate.CX q (q + c1.n_qubits)) ∧
    ((overlap_circs c1 c2).2.gates.drop c1.n_qubits).take c1.n_qubits =
      (List.range c1.n_qubits).map (fun q => Gate.CX q (q + c1.n_qubits)) ∧
    (overlap_circs c1 c2).1.gates.drop (2 * c1.n_qubits) =
      c1.gates.map (Gate.remap (List.range c1.n_qubits)) ∧
    (overlap_circs c1 c2).2.gates.drop (2 * c1.n_qubits) =
      c2.gates.map (Gate.remap (List.range c1.n_qubits)) ∧
    (c1.wf → (overlap_circs c1 c2).1.gates.drop (2 * c1.n_qubits) = c1.gates) ∧
    (c2.wf → (overlap_circs c1 c2).2.gates.drop (2 * c1.n_qubits) = c2.gates) := by
  refine ⟨?_, ?_, ?_, ?_, ?_, ?_, ?_, ?_, ?_, ?_⟩
  · exact bell_states_n_qubits c1.n_qubits
  · exact bell_states_n_qubits c1.n_qubits
  · rw [overlap_circs_fst_gates]
    exact take_bell_H _ _
  · rw [overlap_circs_snd_gates]
    exact take_bell_H _ _
  · rw [overlap_circs_fst_gates]
    exact drop_take_bell_CX _ _
  · rw [overlap_circs_snd_gates]
    exact drop_take_bell_CX _ _
  · rw [overlap_circs_fst_gates]
    exact drop_bell _ _
  · rw [overlap_circs_snd_gates]
    exact drop_bell _ _
  · intro hwf
    rw [overlap_circs_fst_gates, drop_bell]
    exact wf_map_remap c1 hwf
  · intro hwf
    rw [overlap_circs_snd_gates, drop_bell, h]
    exact wf_map_remap c2 hwf

/-- Witness for C1 at two concrete one-qubit circuits. -/
theorem overlap_construction_witness :
    (Circuit.n_qubits ⟨1, [Gate.X 0]⟩ = Circuit.n_qubits ⟨1, [Gate.Z 0]⟩) ∧
    (overlap_circs ⟨1, [Gate.X 0]⟩ ⟨1, [Gate.Z 0]⟩).1.gates.drop 2 = [Gate.X 0] ∧
    (overlap_circs ⟨1, [Gate.X 0]⟩ ⟨1, [Gate.Z 0]⟩).2.gates.drop 2 = [Gate.Z 0] := by
  have h := overlap_construction_spec ⟨1, [Gate.X 0]⟩ ⟨1, [Gate.Z 0]⟩ rfl
  exact ⟨rfl, h.2.2.2.2.2.2.2.2.1 rfl, h.2.2.2.2.2.2.2.2.2 rfl⟩

/-- Claim C2 (counterexample): the code's judge is `np.isclose(scalar, 1)`
with numpy default tolerances, not strictly `abs(scalar - 1) < 1e-8`: the
scalar `1 + 5e-6` is judged equivalent by the code but rejected by the
spec's formula. -/
theorem judge_tolerance_ctrex : ¬ (is_equivalent z0 ↔ is_equivalent_spec z0) := by
  have habs : Complex.abs (z0 - 1) = 1 / 200000 := by
    unfold z0
    rw [add_sub_cancel_left, Complex.abs_ofReal]
    norm_num
  intro hiff
  have h1 : is_equivalent z0 := by
    unfold is_equivalent np_isclose npAtol npRtol
    rw [habs, Complex.abs.map_one]
    norm_num
  have h2 := hiff.mp h1
  unfold is_equivalent_spec at h2
  rw [habs] at h2
  norm_num at h2

/-- Claim C2 (amended): the equivalence judgement returns True iff
`abs(scalar - 1) ≤ 1.001e-5` — numpy's `atol + rtol * abs(1)` with the
default `atol = 1e-8`, `rtol = 1e-5`, non-strict — and it is total on
every complex scalar. -/
theorem is_equivalent_iff_le (z : ℂ) :
    is_equivalent z ↔ Complex.abs (z - 1) ≤ 1001 / 10 ^ 8 := by
  unfold is_equivalent np_isclose npAtol npRtol
  rw [Complex.abs.map_one]
  constructor <;> intro h <;> linarith

/-- Claim C3: checking any circuit `C` against itself builds the overlap
of `C` with `C`, whose contraction is exactly 1, and the equivalence
verdict is True. -/
theorem reflexive_self_check (c : Circuit) :
    contract_overlap (overlap_circs c c).1 (overlap_circs c c).2 = 1 ∧
    verdictTrue (test_equivalence c c) := by
  have h1 := overlap_self_eq_one c
  refine ⟨h1, ?_⟩
  have hv : test_equivalence c c =
      .ok (is_equivalent
        (contract_overlap (overlap_circs c c).1 (overlap_circs c c).2)) := by
    unfold test_equivalence
    rw [if_pos rfl]
  refine ⟨_, hv, ?_⟩
  rw [h1]
  exact is_equivalent_one

/-- Claim C4: on circuits with unequal qubit counts `test_equivalence`
fails at its assert (the spec's `InputMismatchError`), surfacing the error
and never producing a contraction result. -/
theorem mismatch_assert_error (c1 c2 : Circuit)
    (h : c1.n_qubits ≠ c2.n_qubits) :
    test_equivalence c1 c2 = .error .inputMismatch ∧
    ∀ p : Prop, test_equivalence c1 c2 ≠ .ok p := by
  have he : test_equivalence c1 c2 = .error .inputMismatch := by
    unfold test_equivalence
    rw [if_neg h]
  refine ⟨he, fun p hp => ?_⟩
  rw [he] at hp
  exact Except.noConfusion hp

/-- Witness for C4 at a 1-qubit / 2-qubit pair. -/
theorem mismatch_assert_error_witness :
    (Circuit.n_qubits ⟨1, []⟩ ≠ Circuit.n_qubits ⟨2, []⟩) ∧
    test_equivalence ⟨1, []⟩ ⟨2, []⟩ = .error .inputMismatch := by
  exact ⟨by decide, (mismatch_assert_error ⟨1, []⟩ ⟨2, []⟩ (by decide)).1⟩

/-- Claim C5 (counterexample): with an engine raising a `ContractionError`
on the first pair of a two-pair batch, `run` aborts with the error: no
FAIL is recorded for the pair, no status line is printed, no report row
exists, and the second pair is never processed — the failure escalates
instead of being caught at the pair level. -/
theorem contraction_abort_ctrex :
    (run 40 tEqErr [ceBefore]).2 = some PyErr.contractionError ∧
    (run 40 tEqErr [ceBefore]).1.n_fail = 0 ∧
    (run 40 tEqErr [ceBefore]).1.results = [] ∧
    (run 40 tEqErr [ceBefore]).1.console.countP ConsoleLine.isStatus = 0 :=
  ⟨rfl, rfl, rfl, rfl⟩

/-- Claim C5 (amended): when `test_equivalence` raises (e.g. a
`ContractionError`) on a pair, the exception is not caught at the pair
level: the candidate loop aborts immediately with the error, the failing
pair gets no FAIL record and no report row, and the remaining candidates
are never processed (the caller's `finally` still writes the rows
collected before the abort). -/
theorem contraction_error_propagates (maxQ : ℕ)
    (tEq : Circuit → Circuit → Except PyErr Bool) (oldC newC : Circuit)
    (stem : String) (f : SrcFile) (st : RunState) (e : PyErr)
    (rest : List SrcFile) (hl : load_circuit f = .ok newC)
    (hq : newC.n_qubits = oldC.n_qubits) (hc : ¬ maxQ < newC.n_qubits)
    (he : tEq newC oldC = .error e) :
    runFold (processPair maxQ tEq oldC stem) (f :: rest) st =
      (st.pushLine (.pairStart f.stem newC.n_gates), some e) := by
  have hp : processPair maxQ tEq oldC stem f st =
      (st.pushLine (.pairStart f.stem newC.n_gates), some e) := by
    rw [processPair_eq_of_load maxQ tEq oldC stem f st newC hl]
    rw [if_neg (fun hne => hne hq), if_neg hc, he]
    rfl
  simp only [runFold, hp]

/-- Witness for C5's amended theorem on a concrete aborting batch step. -/
theorem contraction_error_propagates_witness :
    load_circuit ⟨"a1", ".json", Except.ok ⟨1, []⟩⟩ = .ok ⟨1, []⟩ ∧
    runFold (processPair 40 tEqErr ⟨1, []⟩ "a")
        [⟨"a1", ".json", Except.ok ⟨1, []⟩⟩, ⟨"a2", ".json", Except.ok ⟨1, []⟩⟩]
        initRS =
      (initRS.pushLine (.pairStart "a1" 0), some PyErr.contractionError) := by
  refine ⟨rfl, ?_⟩
  exact contraction_error_propagates 40 tEqErr ⟨1, []⟩ ⟨1, []⟩ "a"
    ⟨"a1", ".json", Except.ok ⟨1, []⟩⟩ initRS PyErr.contractionError
    [⟨"a2", ".json", Except.ok ⟨1, []⟩⟩] rfl rfl (by decide) rfl

/-- Claim C6 (counterexample): a pair failing the qubit-count check is
printed and counted as a FAIL but contributes no row to the results
report, contradicting "every OK-or-FAIL pair contributes exactly one
row". -/
theorem mismatch_no_row_ctrex :
    (run 40 tEqOk [mmBefore]).1.n_fail = 1 ∧
    (run 40 tEqOk [mmBefore]).1.console.countP ConsoleLine.isFail = 1 ∧
    (run 40 tEqOk [mmBefore]).1.results = [] :=
  ⟨rfl, rfl, rfl⟩

/-- Claim C6 (amended): every pair whose processing completes prints
exactly one status (OK, FAIL or Skip) after its line start; the final
counters always equal the number of matching console statuses; and the
report receives exactly one row per contraction-judged pair (status OK or
contraction-FAIL), while mismatch-FAIL pairs and skipped pairs contribute
none. -/
theorem run_accounting :
    (∀ (maxQ : ℕ) (tEq : Circuit → Circuit → Except PyErr Bool)
        (befores : List BeforeEntry), consoleInv (run maxQ tEq befores).1) ∧
    (∀ (maxQ : ℕ) (tEq : Circuit → Circuit → Except PyErr Bool)
        (oldC : Circuit) (stem : String) (f : SrcFile) (st : RunState),
      (processPair maxQ tEq oldC stem f st).2 = none →
      ∃ ng s, ConsoleLine.isStatus s = true ∧
        (processPair maxQ tEq oldC stem f st).1.console =
          st.console ++ [ConsoleLine.pairStart f.stem ng, s]) := by
  refine ⟨run_inv, ?_⟩
  intro maxQ tEq oldC stem f st hnone
  cases hl : load_circuit f with
  | error e =>
      rw [show processPair maxQ tEq oldC stem f st = (st, some e) from by
        simp only [processPair, hl]] at hnone
      exact Option.noConfusion hnone
  | ok newC =>
      rw [processPair_eq_of_load maxQ tEq oldC stem f st newC hl] at hnone ⊢
      by_cases hq : newC.n_qubits ≠ oldC.n_qubits
      · rw [if_pos hq]
        refine ⟨newC.n_gates, .statusFailMismatch newC.n_qubits, rfl, ?_⟩
        simp [failMismatchStep, RunState.pushLine]
      · rw [if_neg hq] at hnone ⊢
        by_cases hc : maxQ < newC.n_qubits
        · rw [if_pos hc]
          refine ⟨newC.n_gates, .statusSkip, rfl, ?_⟩
          simp [skipStep, RunState.pushLine]
        · rw [if_neg hc] at hnone ⊢
          cases he : tEq newC oldC with
          | error e =>
              rw [he] at hnone
              simp [attemptPair] at hnone
          | ok b =>
              refine ⟨newC.n_gates, if b then .statusOk else .statusFailNotEq, ?_, ?_⟩
              · cases b <;> rfl
              · simp [attemptPair, RunState.pushLine]

/-- Witness for C6's amended theorem on one concretely completed pair. -/
theorem run_accounting_witness :
    (processPair 40 tEqOk ⟨1, []⟩ "a" ⟨"a1", ".json", Except.ok ⟨1, []⟩⟩
        initRS).2 = none ∧
    (∃ ng s, ConsoleLine.isStatus s = true ∧
      (processPair 40 tEqOk ⟨1, []⟩ "a" ⟨"a1", ".json", Except.ok ⟨1, []⟩⟩
          initRS).1.console =
        initRS.console ++ [ConsoleLine.pairStart "a1" ng, s]) := by
  refine ⟨rfl, ?_⟩
  exact run_accounting.2 40 tEqOk ⟨1, []⟩ "a" ⟨"a1", ".json", Except.ok ⟨1, []⟩⟩
    initRS rfl

/-- Claim C7: a matching pair whose qubit count equals the configured
ceiling is attempted — the step is exactly the engine consultation —
while a matching pair strictly above the ceiling is recorded as skipped
with the same result for every engine, i.e. the core is never invoked. -/
theorem skip_boundary (maxQ : ℕ) (tEq : Circuit → Circuit → Except PyErr Bool)
    (oldC newC : Circuit) (stem : String) (f : SrcFile) (st : RunState)
    (hl : load_circuit f = .ok newC) (hq : newC.n_qubits = oldC.n_qubits) :
    (newC.n_qubits = maxQ →
      processPair maxQ tEq oldC stem f st =
        attemptPair stem (tEq newC oldC)
          (st.pushLine (.pairStart f.stem newC.n_gates))) ∧
    (maxQ < newC.n_qubits →
      ∀ tEq2 : Circuit → Circuit → Except PyErr Bool,
        processPair maxQ tEq2 oldC stem f st =
          skipStep (st.pushLine (.pairStart f.stem newC.n_gates))) := by
  constructor
  · intro hm
    rw [processPair_eq_of_load maxQ tEq oldC stem f st newC hl]
    rw [if_neg (fun hne => hne hq), if_neg (by omega)]
  · intro hm tEq2
    rw [processPair_eq_of_load maxQ tEq2 oldC stem f st newC hl]
    rw [if_neg (fun hne => hne hq), if_pos hm]

/-- Witness for C7: with ceiling 1 a 1-qubit matching pair is attempted;
with ceiling 0 the same pair is skipped, for an engine that would fail. -/
theorem skip_boundary_witness :
    load_circuit ⟨"a1", ".json", Except.ok ⟨1, []⟩⟩ = .ok ⟨1, []⟩ ∧
    processPair 1 tEqOk ⟨1, []⟩ "a" ⟨"a1", ".json", Except.ok ⟨1, []⟩⟩ initRS =
      attemptPair "a" (tEqOk ⟨1, []⟩ ⟨1, []⟩)
        (initRS.pushLine (.pairStart "a1" 0)) ∧
    processPair 0 tEqErr ⟨1, []⟩ "a" ⟨"a1", ".json", Except.ok ⟨1, []⟩⟩ initRS =
      skipStep (initRS.pushLine (.pairStart "a1" 0)) := by
  refine ⟨rfl, ?_, ?_⟩
  · exact (skip_boundary 1 tEqOk ⟨1, []⟩ ⟨1, []⟩ "a"
      ⟨"a1", ".json", Except.ok ⟨1, []⟩⟩ initRS rfl rfl).1 rfl
  · exact (skip_boundary 0 tEqErr ⟨1, []⟩ ⟨1, []⟩ "a"
      ⟨"a1", ".json", Except.ok ⟨1, []⟩⟩ initRS rfl rfl).2 (by decide) tEqErr

/-- Claim C8: a "before" file whose extension is neither `.json` nor
`.qasm` makes the loader raise the unknown-extension `ValueError`, and
the driver silently skips it: the state is unchanged (no console line, no
report row, no failure count) and the run equals the run without that
file. -/
theorem unknown_format_invisible (maxQ : ℕ)
    (tEq : Circuit → Circuit → Except PyErr Bool) (f : SrcFile)
    (afters : List SrcFile) (st : RunState) (rest : List BeforeEntry)
    (h1 : f.suffix ≠ ".json") (h2 : f.suffix ≠ ".qasm") :
    load_circuit f = .error .valueError ∧
    processBefore maxQ tEq ⟨f, afters⟩ st = (st, none) ∧
    run maxQ tEq (⟨f, afters⟩ :: rest) = run maxQ tEq rest := by
  have hl : load_circuit f = .error .valueError := by
    unfold load_circuit
    rw [if_neg h1, if_neg h2]
  have hp : processBefore maxQ tEq ⟨f, afters⟩ st = (st, none) := by
    simp only [processBefore, hl]
  have hp0 : processBefore maxQ tEq ⟨f, afters⟩ initRS = (initRS, none) := by
    simp only [processBefore, hl]
  have hr : runFold (processBefore maxQ tEq) (⟨f, afters⟩ :: rest) initRS =
      runFold (processBefore maxQ tEq) rest initRS := by
    simp only [runFold]
    rw [hp0]
  refine ⟨hl, hp, ?_⟩
  unfold run
  rw [hr]

/-- Witness for C8 at a `.txt` before file. -/
theorem unknown_format_invisible_witness :
    (SrcFile.suffix ⟨"a", ".txt", Except.ok ⟨1, []⟩⟩ ≠ ".json") ∧
    load_circuit ⟨"a", ".txt", Except.ok ⟨1, []⟩⟩ = .error .valueError ∧
    processBefore 40 tEqOk ⟨⟨"a", ".txt", Except.ok ⟨1, []⟩⟩, []⟩ initRS =
      (initRS, none) := by
  have h := unknown_format_invisible 40 tEqOk ⟨"a", ".txt", Except.ok ⟨1, []⟩⟩
    [] initRS [] (by decide) (by decide)
  exact ⟨by decide, h.1, h.2.1⟩

/-- Claim C9: the `except ValueError` around the before-file load catches
every `ValueError`, not only the unknown-extension raise: a syntactically
malformed `.json` before file — whose parse failure,
`json.JSONDecodeError`, subclasses `ValueError` — is silently skipped
exactly like an unsupported format, never surfaced or counted. -/
theorem malformed_json_invisible (maxQ : ℕ)
    (tEq : Circuit → Circuit → Except PyErr Bool) (f : SrcFile)
    (afters : List SrcFile) (st : RunState) (rest : List BeforeEntry)
    (h1 : f.suffix = ".json") (h2 : f.parsed = .error .valueError) :
    load_circuit f = .error .valueError ∧
    processBefore maxQ tEq ⟨f, afters⟩ st = (st, none) ∧
    run maxQ tEq (⟨f, afters⟩ :: rest) = run maxQ tEq rest := by
  have hl : load_circuit f = .error .valueError := by
    unfold load_circuit
    rw [if_pos h1, h2]
  have hp : processBefore maxQ tEq ⟨f, afters⟩ st = (st, none) := by
    simp only [processBefore, hl]
  have hp0 : processBefore maxQ tEq ⟨f, afters⟩ initRS = (initRS, none) := by
    simp only [processBefore, hl]
  have hr : runFold (processBefore maxQ tEq) (⟨f, afters⟩ :: rest) initRS =
      runFold (processBefore maxQ tEq) rest initRS := by
    simp only [runFold]
    rw [hp0]
  refine ⟨hl, hp, ?_⟩
  unfold run
  rw [hr]

/-- Witness for C9 at a malformed `.json` before file. -/
theorem malformed_json_invisible_witness :
    (SrcFile.suffix ⟨"a", ".json", Except.error PyErr.valueError⟩ = ".json") ∧
    load_circuit ⟨"a", ".json", Except.error PyErr.valueError⟩ =
      .error .valueError ∧
    processBefore 40 tEqOk ⟨⟨"a", ".json", Except.error PyErr.valueError⟩, []⟩
      initRS = (initRS, none) := by
  have h := malformed_json_invisible 40 tEqOk
    ⟨"a", ".json", Except.error PyErr.valueError⟩ [] initRS [] rfl rfl
  exact ⟨rfl, h.1, h.2.1⟩

/-- Claim C10: the mismatch check precedes the ceiling check: a candidate
with a differing qubit count is recorded as a FAIL for every ceiling
value (also when its count exceeds the ceiling), and a pair is recorded
as skipped only when the counts match and exceed the ceiling. -/
theorem mismatch_checked_before_ceiling (maxQ : ℕ)
    (tEq : Circuit → Circuit → Except PyErr Bool) (oldC newC : Circuit)
    (stem : String) (f : SrcFile) (st : RunState)
    (hl : load_circuit f = .ok newC) :
    (newC.n_qubits ≠ oldC.n_qubits →
      processPair maxQ tEq oldC stem f st =
        failMismatchStep newC.n_qubits
          (st.pushLine (.pairStart f.stem newC.n_gates))) ∧
    (processPair maxQ tEq oldC stem f st =
        skipStep (st.pushLine (.pairStart f.stem newC.n_gates)) →
      newC.n_qubits = oldC.n_qubits ∧ maxQ < newC.n_qubits) := by
  constructor
  · intro hne
    rw [processPair_eq_of_load maxQ tEq oldC stem f st newC hl, if_pos hne]
  · intro hskip
    rw [processPair_eq_of_load maxQ tEq oldC stem f st newC hl] at hskip
    by_cases hq : newC.n_qubits ≠ oldC.n_qubits
    · rw [if_pos hq] at hskip
      exfalso
      have hcon := congrArg (fun r => r.1.console) hskip
      simp [failMismatchStep, skipStep, RunState.pushLine] at hcon
    · rw [if_neg hq] at hskip
      by_cases hc : maxQ < newC.n_qubits
      · exact ⟨not_not.mp hq, hc⟩
      · rw [if_neg hc] at hskip
        exfalso
        cases he : tEq newC oldC with
        | error e =>
            rw [he] at hskip
            have hsnd := congrArg (fun r => r.2) hskip
            simp [attemptPair, skipStep] at hsnd
        | ok b =>
            rw [he] at hskip
            have hcon := congrArg (fun r => r.1.console) hskip
            cases b <;>
              simp [attemptPair, skipStep, RunState.pushLine] at hcon

/-- Witness for C10: a mismatched pair above a zero ceiling still FAILs;
a matching pair above the ceiling yields the Skip conclusion. -/
theorem mismatch_checked_before_ceiling_witness :
    (Circuit.n_qubits ⟨2, []⟩ ≠ Circuit.n_qubits ⟨1, []⟩) ∧
    processPair 0 tEqOk ⟨1, []⟩ "a" ⟨"a1", ".json", Except.ok ⟨2, []⟩⟩ initRS =
      failMismatchStep 2 (initRS.pushLine (.pairStart "a1" 0)) ∧
    (Circuit.n_qubits ⟨2, []⟩ = Circuit.n_qubits ⟨2, []⟩ ∧
      1 < Circuit.n_qubits ⟨2, []⟩) := by
  refine ⟨by decide, ?_, ?_⟩
  · exact (mismatch_checked_before_ceiling 0 tEqOk ⟨1, []⟩ ⟨2, []⟩ "a"
      ⟨"a1", ".json", Except.ok ⟨2, []⟩⟩ initRS rfl).1 (by decide)
  · exact (mismatch_checked_before_ceiling 1 tEqOk ⟨2, []⟩ ⟨2, []⟩ "a"
      ⟨"a1", ".json", Except.ok ⟨2, []⟩⟩ initRS rfl).2 rfl
